import Mathlib

/-!
# Verification of the TPL three-phase static-analysis pipeline

Shallow embedding of the repository's lexical tokenizer (`lexSource`),
syntax builder (`buildAst`) and semantic checker (`semanticCheck`,
`inferJavaType`, `isTypeCompatible`), together with theorems settling the
frozen claims about them.

Strings from the JavaScript source are modelled as Lean `String` /
`List Char`; JavaScript regular expressions are modelled by deterministic
matchers (each regex used by the program is deterministic: its alternatives
and repetition bodies consume disjoint first characters, so greedy matching
with backtracking coincides with the one-pass matchers written here).
JavaScript `Set` / `Map` become lists; thrown errors become `Except`.
-/

set_option maxRecDepth 10000

/-! ## Character classes (JS `\d`, `\w`, `\s`, `.`, identifier classes) -/

/-- The double-quote character `"`. -/
def quoteCh : Char := Char.ofNat 34

/-- The single-quote character. -/
def aposCh : Char := Char.ofNat 39

/-- The backslash character. -/
def backslashCh : Char := Char.ofNat 92

/-- JS `\d`: ASCII decimal digit (code points 48–57). -/
def isDigitCh (c : Char) : Bool := 48 ≤ c.toNat && c.toNat ≤ 57

/-- `[A-Za-z_]`: first character of the identifier pattern
(code points 65–90, 97–122, 95). -/
def isIdentStart (c : Char) : Bool :=
  (65 ≤ c.toNat && c.toNat ≤ 90) || (97 ≤ c.toNat && c.toNat ≤ 122) || c.toNat = 95

/-- JS `\w` and `[A-Za-z0-9_]`: word character. -/
def isWordCh (c : Char) : Bool := isIdentStart c || isDigitCh c

/-- JS line terminators (not matched by `.`, matched by multiline `$`). -/
def isLineTerm (c : Char) : Bool :=
  c = '\n' || c = '\r' || c.toNat = 0x2028 || c.toNat = 0x2029

/-- JS `\s`: whitespace, including line terminators and the Unicode spaces. -/
def jsWhitespace (c : Char) : Bool :=
  let n := c.toNat
  (9 ≤ n && n ≤ 13) || n = 32 || n = 160 || n = 0x1680 ||
  (0x2000 ≤ n && n ≤ 0x200a) || n = 0x2028 || n = 0x2029 || n = 0x202f ||
  n = 0x205f || n = 0x3000 || n = 0xfeff

/-- JS `String.prototype.trim`: drop leading and trailing whitespace. -/
def jsTrim (s : List Char) : List Char :=
  ((s.dropWhile jsWhitespace).reverse.dropWhile jsWhitespace).reverse

/-! ## Grammar tables (`compiler.constants.ts`) -/

/-- `JAVA_TYPES` from `compiler.constants.ts`. -/
def javaTypesList : List String :=
  ["int", "double", "float", "boolean", "char", "byte", "short", "long", "String"]

/-- `JAVA_TYPES.has`. -/
def javaTypesHas (t : String) : Bool := javaTypesList.contains t

/-- `JAVA_KEYWORDS` from `compiler.constants.ts`. -/
def javaKeywordsList : List String := javaTypesList ++ ["true", "false"]

/-- `OPERATORS` from `compiler.constants.ts`. -/
def operatorsList : List String := ["="]

/-- `PUNCTUATION` from `compiler.constants.ts`. -/
def punctuationList : List String := [";", ","]

/-! ## Type inference (`inferJavaType` in `semantic.service.ts`) -/

/-- JS `Array.prototype.indexOf`: index of the first occurrence, `-1` if absent. -/
def jsIndexOf : List String → String → Int
  | [], _ => -1
  | x :: xs, s =>
    if x = s then 0
    else
      let r := jsIndexOf xs s
      if r = -1 then -1 else r + 1

/-- The widening ladder `['byte','short','int','long','float','double']`. -/
def numericHierarchy : List String := ["byte", "short", "int", "long", "float", "double"]

/-- `isTypeCompatible` from `semantic.service.ts`. -/
def isTypeCompatible (declared value : String) : Bool :=
  if declared = value then true
  else
    let declaredIdx := jsIndexOf numericHierarchy declared
    let valueIdx := jsIndexOf numericHierarchy value
    if declaredIdx ≠ -1 ∧ valueIdx ≠ -1 then decide (declaredIdx ≥ valueIdx)
    else if value = "char" then ["int", "long", "float", "double"].contains declared
    else false

/-- Strip the optional leading minus sign (`-?` in the numeric regexes). -/
def stripMinus (s : List Char) : List Char :=
  if s.head? = some '-' then s.tail else s

/-- Body-and-closing-quote matcher for the anchored literal regexes
`^"(?:[^"\\]|\\.)*"$` and `^'(?:[^'\\]|\\.)*'$` (after the opening quote):
the repetition body cannot match the quote, so the first unescaped quote
must close the literal and must end the string. `\\.`: the dot does not
match line terminators. -/
def quotedBodyEnd (q : Char) : List Char → Bool
  | [] => false
  | c :: rest =>
    if c = q then rest.isEmpty
    else if c = backslashCh then
      match rest with
      | [] => false
      | d :: rest2 => if isLineTerm d then false else quotedBodyEnd q rest2
    else quotedBodyEnd q rest

/-- `^"(?:[^"\\]|\\.)*"$` — string-literal test in `inferJavaType`. -/
def stringLitTest (s : List Char) : Bool :=
  match s with
  | c :: rest => c = quoteCh && quotedBodyEnd quoteCh rest
  | [] => false

/-- `^'(?:[^'\\]|\\.)'$` — char-literal test in `inferJavaType`:
exactly one raw character or one backslash escape between the quotes. -/
def charLitTest (s : List Char) : Bool :=
  match s with
  | [a, b, c] => a = aposCh && c = aposCh && ! (b = aposCh) && ! (b = backslashCh)
  | [a, b, d, c] => a = aposCh && c = aposCh && b = backslashCh && ! isLineTerm d
  | _ => false

/-- `^-?\d+(?:\.\d+)?[fF]$` — float test in `inferJavaType`. -/
def floatTest (s : List Char) : Bool :=
  let t := stripMinus s
  let d1 := t.takeWhile isDigitCh
  let r1 := t.dropWhile isDigitCh
  ! d1.isEmpty &&
    (match r1 with
     | ['f'] => true
     | ['F'] => true
     | '.' :: r2 =>
       let d2 := r2.takeWhile isDigitCh
       let r3 := r2.dropWhile isDigitCh
       ! d2.isEmpty && (r3 = ['f'] || r3 = ['F'])
     | _ => false)

/-- `^-?\d+\.\d+[dD]?$` — double test in `inferJavaType`. -/
def doubleTest (s : List Char) : Bool :=
  let t := stripMinus s
  let d1 := t.takeWhile isDigitCh
  let r1 := t.dropWhile isDigitCh
  ! d1.isEmpty &&
    (match r1 with
     | '.' :: r2 =>
       let d2 := r2.takeWhile isDigitCh
       let r3 := r2.dropWhile isDigitCh
       ! d2.isEmpty && (r3 = [] || r3 = ['d'] || r3 = ['D'])
     | _ => false)

/-- `^-?\d+[lL]$` — long test in `inferJavaType`. -/
def longTest (s : List Char) : Bool :=
  let t := stripMinus s
  let d1 := t.takeWhile isDigitCh
  let r1 := t.dropWhile isDigitCh
  ! d1.isEmpty && (r1 = ['l'] || r1 = ['L'])

/-- `^-?\d+$` — bare-integer test in `inferJavaType`. -/
def bareIntTest (s : List Char) : Bool :=
  let t := stripMinus s
  let d1 := t.takeWhile isDigitCh
  let r1 := t.dropWhile isDigitCh
  ! d1.isEmpty && r1.isEmpty

/-- Decimal value of a digit string. -/
def digitsVal (ds : List Char) : Nat :=
  ds.foldl (fun a c => a * 10 + (c.toNat - 48)) 0

/-- `parseInt(expression, 10)` on a string already known to match `^-?\d+$`.
Modelled as the exact integer value: JavaScript's `parseInt` returns an exact
value for every integer up to `2^53`, and for larger inputs the rounded
double still compares on the same side of every bound used by
`inferJavaType` (all bounds are below `2^31`), so the branch taken is the
same as with the exact value. -/
def parseIntJS (s : List Char) : Int :=
  if s.head? = some '-' then -(digitsVal s.tail : Int) else (digitsVal s : Int)

/-- `inferJavaType` from `semantic.service.ts`. -/
def inferJavaType (expression : String) : Option String :=
  let s := jsTrim expression.data
  if s = "true".data ∨ s = "false".data then some "boolean"
  else if stringLitTest s then some "String"
  else if charLitTest s then some "char"
  else if floatTest s then some "float"
  else if doubleTest s then some "double"
  else if longTest s then some "long"
  else if bareIntTest s then
    let num := parseIntJS s
    if -128 ≤ num ∧ num ≤ 127 then some "byte"
    else if -32768 ≤ num ∧ num ≤ 32767 then some "short"
    else if -2147483648 ≤ num ∧ num ≤ 2147483647 then some "int"
    else some "long"
  else none

/-! ## AST and semantic checker (`semanticCheck` in `semantic.service.ts`) -/

/-- `AstNode` from `compiler.types`: `{ type, label?, children? }`. -/
inductive AstNode where
  | mk (type : String) (label : Option String) (children : Option (List AstNode))

/-- The `type` field. -/
def AstNode.type : AstNode → String
  | .mk t _ _ => t

/-- The `label` field. -/
def AstNode.label : AstNode → Option String
  | .mk _ l _ => l

/-- The `children` field. -/
def AstNode.children : AstNode → Option (List AstNode)
  | .mk _ _ c => c

/-- `SemanticFinding` from `compiler.types`. -/
structure SemanticFinding where
  level : String
  message : String
deriving DecidableEq

/-- JS falsiness of `typeNode?.label`: `undefined` or the empty string. -/
def falsyStr : Option String → Bool
  | none => true
  | some s => s = ""

/-- JS `Map.prototype.has` on the scope. -/
def scopeHas (scope : List (String × String)) (k : String) : Bool :=
  scope.any (fun p => p.1 = k)

/-- JS `Map.prototype.set` on the scope: replace in place or append. -/
def scopeSet : List (String × String) → String → String → List (String × String)
  | [], k, v => [(k, v)]
  | (k0, v0) :: rest, k, v =>
    if k0 = k then (k0, v) :: rest else (k0, v0) :: scopeSet rest k v

/-- The `if (expression) { ... }` tail of the `VariableDeclaration` branch of
`semanticCheck`: the type-mismatch check on the initializer. JS truthiness:
the check runs only when the expression label is present and non-empty, and
only when `inferJavaType` returned a truthy (present, non-empty) type. -/
def assignmentFindings (declaredType : String) (expression : Option String) :
    List SemanticFinding :=
  match expression with
  | none => []
  | some e =>
    if e = "" then []
    else
      match inferJavaType e with
      | none => []
      | some valueType =>
        if valueType = "" then []
        else if isTypeCompatible declaredType valueType then []
        else [⟨"error", "Type mismatch: cannot assign " ++ valueType ++ " to " ++ declaredType⟩]

/-- One iteration of the `ast.children?.forEach` loop of `semanticCheck`:
given the scope so far, returns the updated scope and the findings this node
appends. -/
def processNode (scope : List (String × String)) (node : AstNode) :
    List (String × String) × List SemanticFinding :=
  if node.type = "VariableDeclaration" then
    let typeNode := node.children.bind (List.find? (fun c => c.type = "Type"))
    let identifierNode := node.children.bind (List.find? (fun c => c.type = "Identifier"))
    let expressionNode := node.children.bind (List.find? (fun c => c.type = "Expression"))
    let declaredType := typeNode.bind AstNode.label
    let varName := identifierNode.bind AstNode.label
    let expression := expressionNode.bind AstNode.label
    if falsyStr declaredType || falsyStr varName then (scope, [])
    else
      let dt := declaredType.getD ""
      let vn := varName.getD ""
      if ! javaTypesHas dt then
        (scope, [⟨"error", "'" ++ dt ++ "' is not a valid Java type"⟩])
      else if scopeHas scope vn then
        (scope, [⟨"error", "Variable '" ++ vn ++ "' is already declared"⟩])
      else
        (scopeSet scope vn dt,
          ⟨"info", "Variable '" ++ vn ++ "' declared as " ++ dt⟩ ::
            assignmentFindings dt expression)
  else (scope, [])

/-- The whole `forEach` pass of `semanticCheck`, threading the scope and
concatenating findings in document order. -/
def semanticPass (scope : List (String × String)) :
    List AstNode → List (String × String) × List SemanticFinding
  | [] => (scope, [])
  | n :: ns =>
    let r := processNode scope n
    let rest := semanticPass r.1 ns
    (rest.1, r.2 ++ rest.2)

/-- `semanticCheck` from `semantic.service.ts`. Total by construction: it
never throws, mirroring the source, which only reads optional fields. -/
def semanticCheck (ast : AstNode) : List SemanticFinding :=
  let findings := (semanticPass [] (ast.children.getD [])).2
  if findings.isEmpty then [⟨"info", "No semantic errors found"⟩] else findings

/-- The `VariableDeclaration` node shape built by the parser:
children `Type`, `Identifier`, `Expression` in fixed order. -/
def mkDecl (ty ident expr : String) : AstNode :=
  .mk "VariableDeclaration" (some (ty ++ " " ++ ident))
    (some [.mk "Type" (some ty) none,
           .mk "Identifier" (some ident) none,
           .mk "Expression" (some expr) none])

/-- A `Program` node with the given declaration list. -/
def mkProgram (ds : List AstNode) : AstNode := .mk "Program" none (some ds)

/-! ## Lexer (`lexSource`)

`TOKEN_REGEX` from `compiler.constants.ts`:
`"(?:[^"\\]|\\.)*"|'(?:[^'\\]|\\.)*'|-?\d+\.\d+[fFdD]|-?\d+\.\d+|-?\d+[lLfFdD]|-?\d+|[A-Za-z_][A-Za-z0-9_]*|[=;,+\-*/(){}\[\]<>!&|]`
Each alternative is modelled by a matcher returning the consumed lexeme and
the remaining characters; `matchAll` tries the alternatives in order at each
position, advancing past a match or by one character on failure. -/

/-- The single-character production of `TOKEN_REGEX`. -/
def singleCharsList : List Char :=
  ['=', ';', ',', '+', '-', '*', '/', '(', ')',
   Char.ofNat 123, Char.ofNat 125, '[', ']', '<', '>', '!', '&', '|']

/-- Unanchored quoted-literal tail `(?:[^q\\]|\\.)*q` after the opening
quote: the repetition body cannot match `q`, so the first unescaped quote
closes the literal; `\\.` requires a non-line-terminator after a backslash.
Returns the consumed characters (closing quote included) and the rest. -/
def matchQuotedTail (q : Char) : List Char → Option (List Char × List Char)
  | [] => none
  | c :: rest =>
    if c = q then some ([q], rest)
    else if c = backslashCh then
      match rest with
      | [] => none
      | d :: rest2 =>
        if isLineTerm d then none
        else (matchQuotedTail q rest2).map (fun p => (c :: d :: p.1, p.2))
    else (matchQuotedTail q rest).map (fun p => (c :: p.1, p.2))

/-- Alternative 1: `"(?:[^"\\]|\\.)*"`. -/
def matchStrLit (s : List Char) : Option (List Char × List Char) :=
  match s with
  | c :: rest =>
    if c = quoteCh then (matchQuotedTail quoteCh rest).map (fun p => (quoteCh :: p.1, p.2))
    else none
  | [] => none

/-- Alternative 2: `'(?:[^'\\]|\\.)*'`. -/
def matchCharLit (s : List Char) : Option (List Char × List Char) :=
  match s with
  | c :: rest =>
    if c = aposCh then (matchQuotedTail aposCh rest).map (fun p => (aposCh :: p.1, p.2))
    else none
  | [] => none

/-- `-?\d+` prefix shared by the numeric alternatives: optional minus then a
maximal non-empty digit run. -/
def matchSignDigits (s : List Char) : Option (List Char × List Char) :=
  if s.head? = some '-' then
    if (s.tail.takeWhile isDigitCh).isEmpty then none
    else some ('-' :: s.tail.takeWhile isDigitCh, s.tail.dropWhile isDigitCh)
  else
    if (s.takeWhile isDigitCh).isEmpty then none
    else some (s.takeWhile isDigitCh, s.dropWhile isDigitCh)

/-- Alternative 3: `-?\d+\.\d+[fFdD]`. -/
def matchFloatSuffix (s : List Char) : Option (List Char × List Char) :=
  match matchSignDigits s with
  | none => none
  | some (a, r) =>
    match r with
    | '.' :: r2 =>
      if (r2.takeWhile isDigitCh).isEmpty then none
      else
        match r2.dropWhile isDigitCh with
        | c :: r4 =>
          if c = 'f' ∨ c = 'F' ∨ c = 'd' ∨ c = 'D' then
            some (a ++ '.' :: r2.takeWhile isDigitCh ++ [c], r4)
          else none
        | [] => none
    | _ => none

/-- Alternative 4: `-?\d+\.\d+`. -/
def matchFloatPlain (s : List Char) : Option (List Char × List Char) :=
  match matchSignDigits s with
  | none => none
  | some (a, r) =>
    match r with
    | '.' :: r2 =>
      if (r2.takeWhile isDigitCh).isEmpty then none
      else some (a ++ '.' :: r2.takeWhile isDigitCh, r2.dropWhile isDigitCh)
    | _ => none

/-- Alternative 5: `-?\d+[lLfFdD]`. -/
def matchIntSuffix (s : List Char) : Option (List Char × List Char) :=
  match matchSignDigits s with
  | none => none
  | some (a, r) =>
    match r with
    | c :: r2 =>
      if c = 'l' ∨ c = 'L' ∨ c = 'f' ∨ c = 'F' ∨ c = 'd' ∨ c = 'D' then
        some (a ++ [c], r2)
      else none
    | [] => none

/-- Alternative 6: `-?\d+`. -/
def matchIntPlain (s : List Char) : Option (List Char × List Char) :=
  matchSignDigits s

/-- Alternative 7: `[A-Za-z_][A-Za-z0-9_]*`. -/
def matchIdent (s : List Char) : Option (List Char × List Char) :=
  match s with
  | c :: rest =>
    if isIdentStart c then some (c :: rest.takeWhile isWordCh, rest.dropWhile isWordCh)
    else none
  | [] => none

/-- Alternative 8: the single-character class. -/
def matchSingle (s : List Char) : Option (List Char × List Char) :=
  match s with
  | c :: rest => if c ∈ singleCharsList then some ([c], rest) else none
  | [] => none

/-- One attempt of `TOKEN_REGEX` at the head of `s`: alternatives in source
order, first match wins (JS alternation is ordered, not longest-match). -/
def tokenMatch (s : List Char) : Option (List Char × List Char) :=
  (matchStrLit s).orElse fun _ =>
  (matchCharLit s).orElse fun _ =>
  (matchFloatSuffix s).orElse fun _ =>
  (matchFloatPlain s).orElse fun _ =>
  (matchIntSuffix s).orElse fun _ =>
  (matchIntPlain s).orElse fun _ =>
  (matchIdent s).orElse fun _ =>
  matchSingle s

/-- `source.matchAll(TOKEN_REGEX)`: scan left to right; on a match emit
`(start, lexeme)` and continue after it, otherwise advance one character.
Fuel-driven so the kernel can evaluate it; every alternative consumes at
least one character, so `fuel = length` never runs out (a match spends one
fuel but removes `lexeme.length ≥ 1` characters). -/
def scanTokens : Nat → List Char → Nat → List (Nat × List Char)
  | 0, _, _ => []
  | fuel + 1, s, i =>
    match tokenMatch s with
    | some (lex, rest) => (i, lex) :: scanTokens fuel rest (i + lex.length)
    | none =>
      match s with
      | [] => []
      | _ :: tail => scanTokens fuel tail (i + 1)

/-- All matches of `TOKEN_REGEX` over the source. -/
def jsMatchAll (src : List Char) : List (Nat × List Char) :=
  scanTokens src.length src 0

/-- Offset of the first newline character, as in `source.indexOf('\n', i)`
restricted to the suffix starting at `i`. -/
def findNl : List Char → Option Nat
  | [] => none
  | c :: rest => if c = '\n' then some 0 else (findNl rest).map (· + 1)

/-- Offset of the first occurrence of `*/`, as in `source.indexOf('*/', i)`
restricted to a suffix. -/
def findStarSlash : List Char → Option Nat
  | '*' :: '/' :: _ => some 0
  | _ :: rest => (findStarSlash rest).map (· + 1)
  | [] => none

/-- Does the suffix start with `//`? -/
def isSlashSlash : List Char → Bool
  | '/' :: '/' :: _ => true
  | _ => false

/-- Does the suffix start with `/*`? -/
def isSlashStar : List Char → Bool
  | '/' :: '*' :: _ => true
  | _ => false

/-- First pass of `lexSource`: mark whitespace and comments as processed.
`s` is the suffix of the source starting at absolute position `i`; the
result lists the marked absolute positions. A `//` comment is marked up to
(not including) the next `'\n'`; a `/*` comment is marked through the
closing `*/` only if one occurs at offset ≥ 2 — an unterminated opener
marks nothing and scanning resumes at the next character. -/
def preScanAux : Nat → List Char → Nat → List Nat
  | 0, _, _ => []
  | fuel + 1, s, i =>
    match s with
    | [] => []
    | c :: rest =>
      if jsWhitespace c then i :: preScanAux fuel rest (i + 1)
      else if isSlashSlash s then
        match findNl s with
        | some k => List.range' i k ++ preScanAux fuel (s.drop k) (i + k)
        | none => List.range' i s.length
      else if isSlashStar s then
        match (findStarSlash (s.drop 2)).map (· + 2) with
        | some m => List.range' i (m + 2) ++ preScanAux fuel (s.drop (m + 2)) (i + (m + 2))
        | none => preScanAux fuel rest (i + 1)
      else preScanAux fuel rest (i + 1)

/-- The positions marked by the comment/whitespace pre-scan. -/
def preScanMarks (src : List Char) : List Nat := preScanAux src.length src 0

/-- `source.substring(0, i).split('\n').length`: 1-based line number. -/
def lineOf (src : List Char) (i : Nat) : Nat :=
  ((src.take i).filter (fun c => c = '\n')).length + 1

/-- `source.lastIndexOf('\n', i - 1)`: index of the last newline strictly
before `i`, or `-1`. (For `i = 0` JavaScript clamps the from-index to 0 and
inspects position 0 itself; at every call site `src[i]` is the offending
non-newline character, so the result is `-1` either way.) -/
def lastNlBefore (src : List Char) (i : Nat) : Int :=
  match ((src.take i).enum.filter (fun p => p.2 = '\n')).getLast? with
  | some p => (p.1 : Int)
  | none => -1

/-- 1-based column: `i - source.lastIndexOf('\n', i - 1)`. -/
def colOf (src : List Char) (i : Nat) : Int := (i : Int) - lastNlBefore src i

/-- The two `throw new Error(...)` shapes of `lexSource`:
`Invalid char literal {lexeme} at line {l}, column {c}. Char literals can
only contain ONE character.` and `Invalid character '{text}' at line {l},
column {c}`. -/
inductive LexErr where
  | invalidCharLiteral (lexeme : List Char) (line : Nat) (column : Int)
  | invalidCharacter (text : List Char) (line : Nat) (column : Int)
deriving DecidableEq

/-- `Token` from `compiler.types` (`end` is a Lean keyword; the field is
named `stop`). -/
structure LexToken where
  type : String
  lexeme : List Char
  start : Nat
  stop : Nat
deriving DecidableEq

/-- `lexeme.startsWith(c)` for a one-character prefix. -/
def startsWithCh (lex : List Char) (c : Char) : Bool := lex.head? = some c

/-- `lexeme.endsWith(c)` for a one-character suffix. -/
def endsWithCh (lex : List Char) (c : Char) : Bool := lex.getLast? = some c

/-- `/^-?\d+\.\d+[fFdD]?$/` — first number test in the classifier. -/
def numDecTest (s : List Char) : Bool :=
  let t := stripMinus s
  let d1 := t.takeWhile isDigitCh
  let r1 := t.dropWhile isDigitCh
  ! d1.isEmpty &&
    (match r1 with
     | '.' :: r2 =>
       let d2 := r2.takeWhile isDigitCh
       let r3 := r2.dropWhile isDigitCh
       ! d2.isEmpty && (r3 = [] || r3 = ['f'] || r3 = ['F'] || r3 = ['d'] || r3 = ['D'])
     | _ => false)

/-- `/^-?\d+[lLfFdD]?$/` — second number test in the classifier. -/
def numIntTest (s : List Char) : Bool :=
  let t := stripMinus s
  let d1 := t.takeWhile isDigitCh
  let r1 := t.dropWhile isDigitCh
  ! d1.isEmpty &&
    (r1 = [] || r1 = ['l'] || r1 = ['L'] || r1 = ['f'] || r1 = ['F'] || r1 = ['d'] || r1 = ['D'])

/-- `/^[A-Za-z_][A-Za-z0-9_]*$/` — identifier test. -/
def identTest (s : List Char) : Bool :=
  match s with
  | c :: rest => isIdentStart c && rest.all isWordCh
  | [] => false

/-- Membership of a lexeme in a list of string constants. -/
def lexemeIn (ks : List String) (lex : List Char) : Bool :=
  ks.any (fun k => k.data = lex)

/-- `content.length === 1 || (content.length === 2 && content[0] === '\\')`:
the char-literal validity test of the token loop. -/
def validCharContent (content : List Char) : Bool :=
  content.length = 1 || (content.length = 2 && content.head? = some backslashCh)

/-- The classification `if`-chain of the token loop of `lexSource`, in
source order; the two `else` error branches become `Except.error`. -/
def classify (src : List Char) (start : Nat) (lex : List Char) : Except LexErr String :=
  if startsWithCh lex quoteCh && endsWithCh lex quoteCh then .ok "string"
  else if startsWithCh lex aposCh && endsWithCh lex aposCh then
    if validCharContent ((lex.drop 1).dropLast) then .ok "char"
    else .error (.invalidCharLiteral lex (lineOf src start) (colOf src start))
  else if numDecTest lex || numIntTest lex then .ok "number"
  else if lex = "true".data ∨ lex = "false".data then .ok "boolean"
  else if lexemeIn javaKeywordsList lex then .ok "keyword"
  else if lexemeIn operatorsList lex then .ok "operator"
  else if lexemeIn punctuationList lex then .ok "punctuation"
  else if identTest lex then .ok "identifier"
  else .error (.invalidCharacter lex (lineOf src start) (colOf src start))

/-- The token loop of `lexSource`: skip matches whose start position is
already processed, mark kept matches, classify (throwing becomes an error
result), and collect tokens. Also returns the final processed-position set
for the coverage pass. -/
def lexLoopSt (src : List Char) :
    List Nat → List (Nat × List Char) → Except LexErr (List LexToken × List Nat)
  | marked, [] => .ok ([], marked)
  | marked, (start, lex) :: ms =>
    if start ∈ marked then lexLoopSt src marked ms
    else
      let marked2 := marked ++ List.range' start lex.length
      match classify src start lex with
      | .error e => .error e
      | .ok ty =>
        match lexLoopSt src marked2 ms with
        | .error e => .error e
        | .ok (ts, m) => .ok (⟨ty, lex, start, start + lex.length⟩ :: ts, m)

/-- Final coverage pass of `lexSource`: any unprocessed non-whitespace
character raises `Invalid character`. -/
def finalPassAux (src : List Char) (marked : List Nat) :
    List Char → Nat → Except LexErr Unit
  | [], _ => .ok ()
  | c :: rest, i =>
    if ! decide (i ∈ marked) && ! jsWhitespace c then
      .error (.invalidCharacter [c] (lineOf src i) (colOf src i))
    else finalPassAux src marked rest (i + 1)

/-- `lexSource` from the lexer service: pre-scan, token loop, coverage
pass. -/
def lexSource (source : String) : Except LexErr (List LexToken) :=
  let src := source.data
  match lexLoopSt src (preScanMarks src) (jsMatchAll src) with
  | .error e => .error e
  | .ok (toks, marked) =>
    match finalPassAux src marked src 0 with
    | .error e => .error e
    | .ok _ => .ok toks

/-! ## Parser (`buildAst` in `parser.service.ts`) -/

/-- `source.replace(/\/\/.*$/gm, '')`: delete from each `//` to the end of
its line (`.` stops before a line terminator; the terminator itself stays).
Fuel-driven; one fuel per step while at least one character is consumed. -/
def stripLineAux : Nat → List Char → List Char
  | 0, s => s
  | _ + 1, [] => []
  | fuel + 1, c :: rest =>
    if isSlashSlash (c :: rest) then
      stripLineAux fuel ((c :: rest).dropWhile (fun ch => ! isLineTerm ch))
    else c :: stripLineAux fuel rest

/-- First comment-stripping substitution of `buildAst`. -/
def stripLineComments (s : List Char) : List Char := stripLineAux s.length s

/-- `source.replace(/\/\*[\s\S]*?\*\//g, '')`: delete each `/*` through the
first following `*/`; an opener with no close matches nothing (and then no
later opener can close either, so the rest is kept verbatim). -/
def stripBlockAux : Nat → List Char → List Char
  | 0, s => s
  | _ + 1, [] => []
  | fuel + 1, '/' :: '*' :: body =>
    (match findStarSlash body with
     | some k => stripBlockAux fuel (body.drop (k + 2))
     | none => '/' :: '*' :: body)
  | fuel + 1, c :: rest => c :: stripBlockAux fuel rest

/-- Second comment-stripping substitution of `buildAst`. -/
def stripBlockComments (s : List Char) : List Char := stripBlockAux s.length s

/-- `cleanSource.split(';')`: segments between semicolons (empty segments
included). -/
def splitSemi : List Char → List (List Char)
  | [] => [[]]
  | ';' :: rest => [] :: splitSemi rest
  | c :: rest =>
    match splitSemi rest with
    | seg :: segs => (c :: seg) :: segs
    | [] => [[c]]

/-- `stmt.match(/^(\w+)\s+(\w+)\s*=\s*(.+)$/)`, modelled for the trimmed
fragments `buildAst` feeds it (no trailing whitespace): `\w` and `\s` are
disjoint and `.` excludes line terminators, so the backtracking regex is
equivalent to this one-pass matcher; the captured expression is everything
after the first non-whitespace character following `=`, and the match fails
if that remainder is empty or contains a line terminator (`.` cannot cross
it and `$` is the end of the string). -/
def stmtMatch (s : List Char) : Option (List Char × List Char × List Char) :=
  let w1 := s.takeWhile isWordCh
  let r1 := s.dropWhile isWordCh
  if w1.isEmpty then none
  else
    let sp1 := r1.takeWhile jsWhitespace
    let r2 := r1.dropWhile jsWhitespace
    if sp1.isEmpty then none
    else
      let w2 := r2.takeWhile isWordCh
      let r3 := r2.dropWhile isWordCh
      if w2.isEmpty then none
      else
        match r3.dropWhile jsWhitespace with
        | '=' :: r5 =>
          let e := r5.dropWhile jsWhitespace
          if e.isEmpty then none
          else if e.all (fun c => ! isLineTerm c) then some (w1, w2, e)
          else none
        | _ => none

/-- `/^\d/.test(identifier)`. -/
def startsWithDigit (s : List Char) : Bool :=
  match s with
  | c :: _ => isDigitCh c
  | [] => false

/-- The per-fragment body of the `for` loop of `buildAst`; `throw` becomes
`Except.error` carrying the exact message. -/
def processStmt (stmt : List Char) : Except String AstNode :=
  match stmtMatch stmt with
  | none =>
    .error ("Syntax error: Invalid statement '" ++ String.mk stmt ++
      "'. Expected format: type identifier = value;")
  | some (ty, ident, expr) =>
    if ! javaTypesHas (String.mk ty) then
      .error ("Syntax error: '" ++ String.mk ty ++ "' is not a valid Java type")
    else if startsWithDigit ident then
      .error ("Syntax error: Identifier '" ++ String.mk ident ++ "' cannot start with a number")
    else if ! identTest ident then
      .error ("Syntax error: Identifier '" ++ String.mk ident ++ "' contains invalid characters")
    else .ok (mkDecl (String.mk ty) (String.mk ident) (String.mk (jsTrim expr)))

/-- The statement loop of `buildAst`: first error aborts the parse. -/
def buildAstLoop : List (List Char) → Except String (List AstNode)
  | [] => .ok []
  | stmt :: rest =>
    match processStmt stmt with
    | .error e => .error e
    | .ok n =>
      match buildAstLoop rest with
      | .error e => .error e
      | .ok ns => .ok (n :: ns)

/-- `buildAst` from `parser.service.ts`. -/
def buildAst (source : String) : Except String AstNode :=
  let clean := stripBlockComments (stripLineComments source.data)
  let statements := ((splitSemi clean).map jsTrim).filter (fun s => ! s.isEmpty)
  match buildAstLoop statements with
  | .error e => .error e
  | .ok ds =>
    .ok (.mk "Program" none
      (some (if ds.isEmpty then [.mk "Empty" (some "No statements") none] else ds)))

/-! ## Spec-side definitions (used only to state claims) -/

/-- The spec's ladder index: position of a type name on the numeric ladder,
`none` if it is not on the ladder. -/
def ladderIdx : List String → String → Option Nat
  | [], _ => none
  | x :: xs, s => if x = s then some 0 else (ladderIdx xs s).map (· + 1)

/-- The claim's range narrowing for bare integer literals: `byte` on
[-128,127], `short` on [-32768,32767], `int` on
[-2147483648,2147483647], otherwise `long`. -/
def specIntType (num : Int) : String :=
  if -128 ≤ num ∧ num ≤ 127 then "byte"
  else if -32768 ≤ num ∧ num ≤ 32767 then "short"
  else if -2147483648 ≤ num ∧ num ≤ 2147483647 then "int"
  else "long"

/-- `source[start:end]` as a character-list slice (half-open). -/
def listSlice (s : List Char) (a b : Nat) : List Char := (s.drop a).take (b - a)

/-- The characters of the single-character production that are neither the
operator `=` nor the punctuation `;`/`,`: `+ - * / ( ) { } [ ] < > ! & |`.
They match `TOKEN_REGEX` but fall through every classification branch. -/
def nonLexableSingles : List Char :=
  ['+', '-', '*', '/', '(', ')', Char.ofNat 123, Char.ofNat 125,
   '[', ']', '<', '>', '!', '&', '|']

/-! ## Helper lemmas -/

theorem jsIndexOf_eq_ladderIdx (l : List String) (s : String) :
    jsIndexOf l s = match ladderIdx l s with | some i => (i : Int) | none => -1 := by
  induction l with
  | nil => rfl
  | cons x xs ih =>
    by_cases h : x = s
    · simp [jsIndexOf, ladderIdx, h]
    · simp only [jsIndexOf, ladderIdx, if_neg h, ih]
      cases hx : ladderIdx xs s with
      | none => simp
      | some i =>
        have h1 : ¬ ((i : Int) = -1) := by omega
        simp [h1]

theorem ladderIdx_char : ladderIdx numericHierarchy "char" = none := by decide

theorem digit_not_ws {c : Char} (h : isDigitCh c = true) : jsWhitespace c = false := by
  simp only [isDigitCh, Bool.and_eq_true, decide_eq_true_eq] at h
  simp only [jsWhitespace, Bool.or_eq_false_iff, Bool.and_eq_false_iff,
    decide_eq_false_iff_not, not_le]
  omega

/-! ## Claims -/

/-- C1: `compatible(declared, inferred)` returns true if and only if the
types are equal, or both lie on the numeric ladder with
`index(declared) ≥ index(inferred)`, or the inferred type is `char` and the
declared type is one of `int`, `long`, `float`, `double`; false in every
other case (in particular `char` never widens to `byte`/`short`, and
nothing widens to `boolean`, `char`, or `String`). -/
theorem C1_isTypeCompatible_iff (declared value : String) :
    isTypeCompatible declared value = true ↔
      declared = value ∨
      (∃ i j, ladderIdx numericHierarchy declared = some i ∧
              ladderIdx numericHierarchy value = some j ∧ j ≤ i) ∨
      (value = "char" ∧ declared ∈ ["int", "long", "float", "double"]) := by
  unfold isTypeCompatible
  rw [jsIndexOf_eq_ladderIdx, jsIndexOf_eq_ladderIdx]
  by_cases hdv : declared = value
  · simp [hdv]
  · cases hd : ladderIdx numericHierarchy declared with
    | none =>
      cases hv : ladderIdx numericHierarchy value with
      | none =>
        by_cases hc : value = "char"
        · simp [hdv, hc, List.contains, List.elem_iff]
        · simp [hdv, hc]
      | some j => simp [hdv, hd]
    | some i =>
      cases hv : ladderIdx numericHierarchy value with
      | none =>
        have hvc : value ≠ "char" ∨ value = "char" := em _ |>.symm
        by_cases hc : value = "char"
        · simp [hdv, hd, hc, List.contains, List.elem_iff]
        · simp [hdv, hd, hc]
      | some j =>
        have hvc : value ≠ "char" := by
          intro h
          rw [h, ladderIdx_char] at hv
          exact Option.noConfusion hv
        have h1 : ¬ ((i : Int) = -1) := by omega
        have h2 : ¬ ((j : Int) = -1) := by omega
        simp [hdv, hd, hv, hvc, h1, h2, ge_iff_le, Nat.cast_le]

theorem dropWhile_eq_self_of_false {p : Char → Bool} {l : List Char}
    (h : ∀ c ∈ l, p c = false) : l.dropWhile p = l := by
  cases l with
  | nil => rfl
  | cons a t => simp [List.dropWhile_cons, h a (List.mem_cons_self a t)]

theorem jsTrim_eq_self {s : List Char} (h : ∀ c ∈ s, jsWhitespace c = false) :
    jsTrim s = s := by
  unfold jsTrim
  rw [dropWhile_eq_self_of_false h]
  rw [dropWhile_eq_self_of_false (fun c hc => h c (List.mem_reverse.mp hc))]
  exact List.reverse_reverse s

theorem bareInt_shape {s : List Char} (h : bareIntTest s = true) :
    ∃ c cs, s = c :: cs ∧ (c = '-' ∨ isDigitCh c = true) := by
  cases s with
  | nil => exact absurd h (by decide)
  | cons c cs =>
    refine ⟨c, cs, rfl, ?_⟩
    by_cases hc : c = '-'
    · exact Or.inl hc
    · right
      by_contra hdc
      rw [Bool.not_eq_true] at hdc
      simp [bareIntTest, stripMinus, hc, List.takeWhile_cons, hdc] at h

theorem bareInt_digits {s : List Char} (h : bareIntTest s = true) :
    ∀ c ∈ stripMinus s, isDigitCh c = true := by
  intro c hc
  have h2 : (stripMinus s).dropWhile isDigitCh = [] := by
    simp only [bareIntTest, Bool.and_eq_true, List.isEmpty_iff] at h
    exact h.2
  have h3 : stripMinus s = (stripMinus s).takeWhile isDigitCh := by
    conv_lhs => rw [← List.takeWhile_append_dropWhile (p := isDigitCh) (l := stripMinus s)]
    rw [h2, List.append_nil]
  rw [h3] at hc
  exact List.mem_takeWhile_imp hc

theorem bareInt_not_ws {s : List Char} (h : bareIntTest s = true) :
    ∀ c ∈ s, jsWhitespace c = false := by
  intro c hc
  obtain ⟨c0, cs, rfl, hc0⟩ := bareInt_shape h
  have hdig := bareInt_digits h
  rcases List.mem_cons.mp hc with rfl | hmem
  · rcases hc0 with rfl | hd
    · decide
    · exact digit_not_ws hd
  · have hmem2 : c ∈ stripMinus (c0 :: cs) := by
      by_cases h0 : c0 = '-'
      · simpa [stripMinus, h0] using hmem
      · simp [stripMinus, h0, List.mem_cons, Or.inr hmem]
    exact digit_not_ws (hdig c hmem2)

theorem charLitTest_head {s : List Char} (h : charLitTest s = true) :
    s.head? = some aposCh := by
  unfold charLitTest at h
  split at h
  · simp only [Bool.and_eq_true, decide_eq_true_eq] at h
    simp [h.1.1.1]
  · simp only [Bool.and_eq_true, decide_eq_true_eq] at h
    simp [h.1.1.1]
  · exact absurd h (by decide)

theorem tests_false_of_bareInt {s : List Char} (h : bareIntTest s = true) :
    stringLitTest s = false ∧ charLitTest s = false ∧ floatTest s = false ∧
    doubleTest s = false ∧ longTest s = false ∧
    s ≠ "true".data ∧ s ≠ "false".data := by
  obtain ⟨c0, cs, hs, hc0⟩ := bareInt_shape h
  have hhead : ¬ (c0 = quoteCh) ∧ ¬ (c0 = aposCh) := by
    rcases hc0 with rfl | hd
    · exact ⟨by decide, by decide⟩
    · simp only [isDigitCh, Bool.and_eq_true, decide_eq_true_eq] at hd
      constructor
      · intro hq
        have h34 : c0.toNat = 34 := by rw [hq]; decide
        omega
      · intro hq
        have h39 : c0.toNat = 39 := by rw [hq]; decide
        omega
  have h2 : (stripMinus s).dropWhile isDigitCh = [] := by
    simp only [bareIntTest, Bool.and_eq_true, List.isEmpty_iff] at h
    exact h.2
  refine ⟨?_, ?_, ?_, ?_, ?_, ?_, ?_⟩
  · rw [hs]
    simp [stringLitTest, hhead.1]
  · by_contra hch
    rw [Bool.not_eq_false] at hch
    have := charLitTest_head hch
    rw [hs] at this
    simp only [List.head?_cons, Option.some.injEq] at this
    exact hhead.2 this
  · simp [floatTest, h2, Bool.and_false]
  · simp [doubleTest, h2, Bool.and_false]
  · have h3 : ¬ ((stripMinus s).dropWhile isDigitCh = ['l']) := by simp [h2]
    have h4 : ¬ ((stripMinus s).dropWhile isDigitCh = ['L']) := by simp [h2]
    simp [longTest, h3, h4]
  · intro hq
    rw [hq] at h
    exact absurd h (by decide)
  · intro hq
    rw [hq] at h
    exact absurd h (by decide)

/-- C2: a bare integer literal (optional minus sign, then digits, no suffix
and no decimal point) infers `byte` on [-128,127], `short` on
[-32768,32767] outside the byte range, `int` on
[-2147483648,2147483647] outside the short range, and `long` otherwise,
the value being the literal's integer value. -/
theorem C2_bare_int_inference (e : String) (h : bareIntTest e.data = true) :
    inferJavaType e = some (specIntType (parseIntJS e.data)) := by
  obtain ⟨hstr, hchar, hfl, hdb, hlong, htrue, hfalse⟩ := tests_false_of_bareInt h
  have htrim : jsTrim e.data = e.data := jsTrim_eq_self (bareInt_not_ws h)
  unfold inferJavaType
  rw [htrim]
  rw [if_neg (not_or.mpr ⟨htrue, hfalse⟩)]
  rw [if_neg (by simp [hstr])]
  rw [if_neg (by simp [hchar])]
  rw [if_neg (by simp [hfl])]
  rw [if_neg (by simp [hdb])]
  rw [if_neg (by simp [hlong])]
  rw [if_pos h]
  simp only [specIntType]
  split_ifs <;> rfl

/-- Witness for C2 at the concrete literal `300` (the spec's own example:
`300` infers `short`). -/
theorem C2_witness : inferJavaType "300" = some "short" := by
  rw [C2_bare_int_inference "300" (by decide)]
  decide

theorem javaTypesHas_ne_empty {t : String} (h : javaTypesHas t = true) : t ≠ "" := by
  intro hq
  rw [hq] at h
  exact absurd h (by decide)

/-- C3: for every AST input, `check` returns normally (the embedding is a
total function, mirroring the source, which only reads optional fields and
throws nowhere) and its result is non-empty; whenever the per-declaration
pass emits zero findings, the result is exactly the single info finding
`No semantic errors found`. -/
theorem C3_check_total_nonempty (ast : AstNode) :
    semanticCheck ast ≠ [] ∧
      ((semanticPass [] (ast.children.getD [])).2 = [] →
        semanticCheck ast = [⟨"info", "No semantic errors found"⟩]) := by
  constructor
  · unfold semanticCheck
    cases hf : (semanticPass [] (ast.children.getD [])).2 with
    | nil => simp
    | cons a t => simp
  · intro hf
    unfold semanticCheck
    simp [hf]

/-- Witness for C3 at a concrete empty program. -/
theorem C3_witness :
    semanticCheck (AstNode.mk "Program" none (some [])) =
      [⟨"info", "No semantic errors found"⟩] :=
  (C3_check_total_nonempty (AstNode.mk "Program" none (some []))).2 (by decide)

/-- C4: when `check` meets a `VariableDeclaration` whose identifier is
already registered in the scope (the declaration having a recognized type
and a non-empty name, so that the duplicate check is reached), it emits
exactly the one `already declared` error finding and performs no further
checks on it: the scope — hence the earlier declaration's registered
type — is unchanged, and on a program with two declarations of the same
identifier the findings are the first declaration's info finding (plus its
own assignment check), followed only by the duplicate error for the second
occurrence. -/
theorem C4_duplicate_declaration (dt1 dt2 vn e1 e2 : String)
    (h1 : javaTypesHas dt1 = true) (h2 : javaTypesHas dt2 = true) (hv : vn ≠ "") :
    processNode [(vn, dt1)] (mkDecl dt2 vn e2) =
      ([(vn, dt1)], [⟨"error", "Variable '" ++ vn ++ "' is already declared"⟩]) ∧
    semanticCheck (mkProgram [mkDecl dt1 vn e1, mkDecl dt2 vn e2]) =
      ⟨"info", "Variable '" ++ vn ++ "' declared as " ++ dt1⟩ ::
        (assignmentFindings dt1 (some e1) ++
          [⟨"error", "Variable '" ++ vn ++ "' is already declared"⟩]) := by
  have hd1 : dt1 ≠ "" := javaTypesHas_ne_empty h1
  have hd2 : dt2 ≠ "" := javaTypesHas_ne_empty h2
  have hdup : processNode [(vn, dt1)] (mkDecl dt2 vn e2) =
      ([(vn, dt1)], [⟨"error", "Variable '" ++ vn ++ "' is already declared"⟩]) := by
    simp [processNode, mkDecl, AstNode.type, AstNode.children, AstNode.label,
      List.find?, falsyStr, scopeHas, h2, hd2, hv]
  refine ⟨hdup, ?_⟩
  have hfirst : processNode [] (mkDecl dt1 vn e1) =
      ([(vn, dt1)], ⟨"info", "Variable '" ++ vn ++ "' declared as " ++ dt1⟩ ::
        assignmentFindings dt1 (some e1)) := by
    simp [processNode, mkDecl, AstNode.type, AstNode.children, AstNode.label,
      List.find?, falsyStr, scopeHas, scopeSet, h1, hd1, hv]
  unfold semanticCheck
  simp only [mkProgram, AstNode.children, Option.getD_some]
  simp only [semanticPass, hfirst, hdup]
  simp

/-- Witness for C4: `int x = 5; long x = 7;` yields the info finding for the
first `x` and a single `already declared` error for the second. -/
theorem C4_witness :
    semanticCheck (mkProgram [mkDecl "int" "x" "5", mkDecl "long" "x" "7"]) =
      [⟨"info", "Variable 'x' declared as int"⟩,
       ⟨"error", "Variable 'x' is already declared"⟩] := by
  rw [(C4_duplicate_declaration "int" "long" "x" "5" "7"
    (by decide) (by decide) (by decide)).2]
  decide

theorem matchQuotedTail_spec (q : Char) (s : List Char) :
    ∀ b r, matchQuotedTail q s = some (b, r) → s = b ++ r ∧ b ≠ [] := by
  induction s using matchQuotedTail.induct q with
  | case1 => intro b r h; simp [matchQuotedTail] at h
  | case2 rest2 =>
    intro b r h
    rw [matchQuotedTail.eq_def] at h
    simp at h
    obtain ⟨hb, hr⟩ := h
    subst hb; subst hr
    simp
  | case3 hq => intro b r h; simp [matchQuotedTail, hq] at h
  | case4 d rest2 hd hq => intro b r h; simp [matchQuotedTail, hq, hd] at h
  | case5 d rest2 hd hq ih =>
    intro b r h
    rw [matchQuotedTail.eq_def] at h
    cases hmq : matchQuotedTail q rest2 with
    | none => simp [hq, hd, hmq] at h
    | some p =>
      obtain ⟨b2, r2⟩ := p
      simp [hq, hd, hmq] at h
      obtain ⟨ih1, ih2⟩ := ih b2 r2 hmq
      obtain ⟨hb, hr⟩ := h
      subst hb; subst hr
      simp [ih1]
  | case6 d rest2 hdq hdb ih =>
    intro b r h
    rw [matchQuotedTail.eq_def] at h
    cases hmq : matchQuotedTail q rest2 with
    | none => simp [hdq, hdb, hmq] at h
    | some p =>
      obtain ⟨b2, r2⟩ := p
      simp [hdq, hdb, hmq] at h
      obtain ⟨ih1, ih2⟩ := ih b2 r2 hmq
      obtain ⟨hb, hr⟩ := h
      subst hb; subst hr
      simp [ih1]

theorem head?_eq_cons {s : List Char} {c : Char} (h : s.head? = some c) :
    s = c :: s.tail := by
  cases s with
  | nil => simp at h
  | cons a t =>
    simp only [List.head?_cons, Option.some.injEq] at h
    subst h
    rfl

theorem matchStrLit_spec (s b r : List Char) (h : matchStrLit s = some (b, r)) :
    s = b ++ r ∧ b ≠ [] := by
  unfold matchStrLit at h
  split at h
  · rename_i c rest
    split at h
    · rename_i hc
      cases hmq : matchQuotedTail quoteCh rest with
      | none => rw [hmq] at h; simp at h
      | some p =>
        obtain ⟨b2, r2⟩ := p
        rw [hmq] at h
        simp only [Option.map_some', Option.some.injEq, Prod.mk.injEq] at h
        obtain ⟨hb, hr⟩ := h
        subst hb; subst hr
        have := matchQuotedTail_spec quoteCh rest b2 r2 hmq
        subst hc
        simp [this.1]
    · simp at h
  · simp at h

theorem matchCharLit_spec (s b r : List Char) (h : matchCharLit s = some (b, r)) :
    s = b ++ r ∧ b ≠ [] := by
  unfold matchCharLit at h
  split at h
  · rename_i c rest
    split at h
    · rename_i hc
      cases hmq : matchQuotedTail aposCh rest with
      | none => rw [hmq] at h; simp at h
      | some p =>
        obtain ⟨b2, r2⟩ := p
        rw [hmq] at h
        simp only [Option.map_some', Option.some.injEq, Prod.mk.injEq] at h
        obtain ⟨hb, hr⟩ := h
        subst hb; subst hr
        have := matchQuotedTail_spec aposCh rest b2 r2 hmq
        subst hc
        simp [this.1]
    · simp at h
  · simp at h

theorem matchSignDigits_spec (s b r : List Char) (h : matchSignDigits s = some (b, r)) :
    s = b ++ r ∧ b ≠ [] := by
  unfold matchSignDigits at h
  split at h
  · rename_i hh
    split at h
    · simp at h
    · simp only [Option.some.injEq, Prod.mk.injEq] at h
      obtain ⟨hb, hr⟩ := h
      subst hb; subst hr
      constructor
      · conv_lhs => rw [head?_eq_cons hh]
        simp [List.takeWhile_append_dropWhile]
      · simp
  · split at h
    · simp at h
    · rename_i hd
      simp only [Option.some.injEq, Prod.mk.injEq] at h
      obtain ⟨hb, hr⟩ := h
      subst hb; subst hr
      refine ⟨(List.takeWhile_append_dropWhile ..).symm, ?_⟩
      simpa [List.isEmpty_iff] using hd

theorem matchFloatSuffix_spec (s b r : List Char)
    (h : matchFloatSuffix s = some (b, r)) : s = b ++ r ∧ b ≠ [] := by
  unfold matchFloatSuffix at h
  cases hsd : matchSignDigits s with
  | none => rw [hsd] at h; simp at h
  | some p =>
    obtain ⟨a, r0⟩ := p
    rw [hsd] at h
    dsimp only at h
    obtain ⟨hs1, ha⟩ := matchSignDigits_spec s a r0 hsd
    split at h
    · rename_i r2'
      split at h
      · simp at h
      · cases hdw : r2'.dropWhile isDigitCh with
        | nil => rw [hdw] at h; dsimp only at h; simp at h
        | cons c r4 =>
          rw [hdw] at h
          dsimp only at h
          split at h
          · simp only [Option.some.injEq, Prod.mk.injEq] at h
            obtain ⟨hb, hr⟩ := h
            subst hb; subst hr
            constructor
            · rw [hs1]
              have h2 : r2' = r2'.takeWhile isDigitCh ++ (c :: r4) := by
                conv_lhs =>
                  rw [← List.takeWhile_append_dropWhile (p := isDigitCh) (l := r2')]
                rw [hdw]
              conv_lhs => rw [h2]
              simp
            · simp [ha]
          · simp at h
    · simp at h

theorem matchFloatPlain_spec (s b r : List Char)
    (h : matchFloatPlain s = some (b, r)) : s = b ++ r ∧ b ≠ [] := by
  unfold matchFloatPlain at h
  cases hsd : matchSignDigits s with
  | none => rw [hsd] at h; simp at h
  | some p =>
    obtain ⟨a, r0⟩ := p
    rw [hsd] at h
    dsimp only at h
    obtain ⟨hs1, ha⟩ := matchSignDigits_spec s a r0 hsd
    split at h
    · rename_i r2'
      split at h
      · simp at h
      · simp only [Option.some.injEq, Prod.mk.injEq] at h
        obtain ⟨hb, hr⟩ := h
        subst hb; subst hr
        constructor
        · rw [hs1]
          conv_lhs =>
            rw [show r2' = r2'.takeWhile isDigitCh ++ r2'.dropWhile isDigitCh from
              (List.takeWhile_append_dropWhile ..).symm]
          simp
        · simp [ha]
    · simp at h

theorem matchIntSuffix_spec (s b r : List Char)
    (h : matchIntSuffix s = some (b, r)) : s = b ++ r ∧ b ≠ [] := by
  unfold matchIntSuffix at h
  cases hsd : matchSignDigits s with
  | none => rw [hsd] at h; simp at h
  | some p =>
    obtain ⟨a, r0⟩ := p
    rw [hsd] at h
    dsimp only at h
    obtain ⟨hs1, ha⟩ := matchSignDigits_spec s a r0 hsd
    cases r0 with
    | nil => dsimp only at h; simp at h
    | cons c r2' =>
      dsimp only at h
      split at h
      · simp only [Option.some.injEq, Prod.mk.injEq] at h
        obtain ⟨hb, hr⟩ := h
        subst hb; subst hr
        constructor
        · rw [hs1]; simp
        · simp [ha]
      · simp at h

theorem matchIntPlain_spec (s b r : List Char)
    (h : matchIntPlain s = some (b, r)) : s = b ++ r ∧ b ≠ [] :=
  matchSignDigits_spec s b r h

theorem matchIdent_spec (s b r : List Char)
    (h : matchIdent s = some (b, r)) : s = b ++ r ∧ b ≠ [] := by
  unfold matchIdent at h
  split at h
  · rename_i c rest
    split at h
    · simp only [Option.some.injEq, Prod.mk.injEq] at h
      obtain ⟨hb, hr⟩ := h
      subst hb; subst hr
      refine ⟨?_, by simp⟩
      simp [List.takeWhile_append_dropWhile]
    · simp at h
  · simp at h

theorem matchSingle_spec (s b r : List Char)
    (h : matchSingle s = some (b, r)) : s = b ++ r ∧ b ≠ [] := by
  unfold matchSingle at h
  split at h
  · split at h
    · simp only [Option.some.injEq, Prod.mk.injEq] at h
      obtain ⟨hb, hr⟩ := h
      subst hb; subst hr
      simp
    · simp at h
  · simp at h

theorem tokenMatch_spec (s b r : List Char) (h : tokenMatch s = some (b, r)) :
    s = b ++ r ∧ b ≠ [] := by
  unfold tokenMatch at h
  cases h1 : matchStrLit s with
  | some p => rw [h1] at h; simp only [Option.orElse] at h
              exact matchStrLit_spec s b r (by rw [h1, h])
  | none =>
  rw [h1] at h; simp only [Option.orElse] at h
  cases h2 : matchCharLit s with
  | some p => rw [h2] at h; simp only [Option.orElse] at h
              exact matchCharLit_spec s b r (by rw [h2, h])
  | none =>
  rw [h2] at h; simp only [Option.orElse] at h
  cases h3 : matchFloatSuffix s with
  | some p => rw [h3] at h; simp only [Option.orElse] at h
              exact matchFloatSuffix_spec s b r (by rw [h3, h])
  | none =>
  rw [h3] at h; simp only [Option.orElse] at h
  cases h4 : matchFloatPlain s with
  | some p => rw [h4] at h; simp only [Option.orElse] at h
              exact matchFloatPlain_spec s b r (by rw [h4, h])
  | none =>
  rw [h4] at h; simp only [Option.orElse] at h
  cases h5 : matchIntSuffix s with
  | some p => rw [h5] at h; simp only [Option.orElse] at h
              exact matchIntSuffix_spec s b r (by rw [h5, h])
  | none =>
  rw [h5] at h; simp only [Option.orElse] at h
  cases h6 : matchIntPlain s with
  | some p => rw [h6] at h; simp only [Option.orElse] at h
              exact matchIntPlain_spec s b r (by rw [h6, h])
  | none =>
  rw [h6] at h; simp only [Option.orElse] at h
  cases h7 : matchIdent s with
  | some p => rw [h7] at h; simp only [Option.orElse] at h
              exact matchIdent_spec s b r (by rw [h7, h])
  | none =>
  rw [h7] at h; simp only [Option.orElse] at h
  exact matchSingle_spec s b r h

theorem scanTokens_succ (fuel : Nat) (s : List Char) (i : Nat) :
    scanTokens (fuel + 1) s i =
      match tokenMatch s with
      | some (lex, rest) => (i, lex) :: scanTokens fuel rest (i + lex.length)
      | none =>
        match s with
        | [] => []
        | _ :: tail => scanTokens fuel tail (i + 1) := rfl

theorem scanTokens_spec (src : List Char) :
    ∀ (fuel : Nat) (s : List Char) (i : Nat), s = src.drop i →
      ∀ p ∈ scanTokens fuel s i,
        p.2 ≠ [] ∧ p.1 + p.2.length ≤ src.length ∧
        listSlice src p.1 (p.1 + p.2.length) = p.2 := by
  intro fuel
  induction fuel with
  | zero => intro s i _ p hp; simp [scanTokens] at hp
  | succ fuel ih =>
    intro s i hs p hp
    rw [scanTokens_succ] at hp
    cases hm : tokenMatch s with
    | some pr =>
      obtain ⟨lex, rest⟩ := pr
      rw [hm] at hp
      dsimp only at hp
      obtain ⟨hsplit, hne⟩ := tokenMatch_spec s lex rest hm
      have hi : i ≤ src.length := by
        by_contra hgt
        push_neg at hgt
        have hnil : src.drop i = [] := List.drop_eq_nil_of_le (le_of_lt hgt)
        rw [hnil] at hs
        rw [hs] at hsplit
        exact hne (List.append_eq_nil.mp hsplit.symm).1
      have hdl : (src.drop i).length = src.length - i := List.length_drop i src
      have hlen : lex.length + rest.length = src.length - i := by
        rw [← List.length_append, ← hsplit, hs, hdl]
      rcases List.mem_cons.mp hp with rfl | hmem
      · dsimp only
        refine ⟨hne, by omega, ?_⟩
        unfold listSlice
        rw [Nat.add_sub_cancel_left, ← hs, hsplit, List.take_left]
      · refine ih rest (i + lex.length) ?_ p hmem
        have : src.drop (i + lex.length) = (src.drop i).drop lex.length := by
          rw [List.drop_drop, Nat.add_comm]
        rw [this, ← hs, hsplit, List.drop_left]
    | none =>
      rw [hm] at hp
      dsimp only at hp
      cases s with
      | nil => simp at hp
      | cons c tail =>
        refine ih tail (i + 1) ?_ p hp
        have h1 : src.drop (i + 1) = (src.drop i).drop 1 := by
          rw [List.drop_drop, Nat.add_comm]
        rw [h1, ← hs]
        rfl

theorem lexLoopSt_tokens (src : List Char) :
    ∀ (marked : List Nat) (ms : List (Nat × List Char)) (toks : List LexToken)
      (m : List Nat), lexLoopSt src marked ms = .ok (toks, m) →
      ∀ t ∈ toks, ∃ p ∈ ms, t.start = p.1 ∧ t.lexeme = p.2 ∧
        t.stop = p.1 + p.2.length ∧ classify src p.1 p.2 = .ok t.type := by
  intro marked ms
  induction ms generalizing marked with
  | nil =>
    intro toks m h t ht
    simp only [lexLoopSt, Except.ok.injEq, Prod.mk.injEq] at h
    rw [← h.1] at ht
    simp at ht
  | cons pr rest ih =>
    obtain ⟨start, lex⟩ := pr
    intro toks m h t ht
    rw [lexLoopSt] at h
    by_cases hmem : start ∈ marked
    · rw [if_pos hmem] at h
      obtain ⟨p, hp, hrest⟩ := ih marked toks m h t ht
      exact ⟨p, List.mem_cons_of_mem _ hp, hrest⟩
    · rw [if_neg hmem] at h
      cases hc : classify src start lex with
      | error e => rw [hc] at h; simp at h
      | ok ty =>
        rw [hc] at h
        dsimp only at h
        cases hrec : lexLoopSt src (marked ++ List.range' start lex.length) rest with
        | error e => rw [hrec] at h; simp at h
        | ok pr2 =>
          obtain ⟨ts, m2⟩ := pr2
          rw [hrec] at h
          simp only [Except.ok.injEq, Prod.mk.injEq] at h
          obtain ⟨htoks, hm2⟩ := h
          rw [← htoks] at ht
          rcases List.mem_cons.mp ht with rfl | hmem2
          · exact ⟨(start, lex), List.mem_cons_self .., rfl, rfl, rfl, hc⟩
          · obtain ⟨p, hp, hrest⟩ := ih _ ts m2 hrec t hmem2
            exact ⟨p, List.mem_cons_of_mem _ hp, hrest⟩

/-- C5: whenever `lex` succeeds, every returned token satisfies
`start < end ≤ len(source)` and `source[start:end] = lexeme`
(position fidelity). -/
theorem C5_token_position_fidelity (source : String) (toks : List LexToken)
    (h : lexSource source = .ok toks) :
    ∀ t ∈ toks, t.start < t.stop ∧ t.stop ≤ source.data.length ∧
      listSlice source.data t.start t.stop = t.lexeme := by
  intro t ht
  unfold lexSource at h
  dsimp only at h
  cases hl : lexLoopSt source.data (preScanMarks source.data) (jsMatchAll source.data) with
  | error e => rw [hl] at h; simp at h
  | ok pr =>
    obtain ⟨ts, m⟩ := pr
    rw [hl] at h
    dsimp only at h
    cases hf : finalPassAux source.data m source.data 0 with
    | error e => rw [hf] at h; simp at h
    | ok u =>
      rw [hf] at h
      simp only [Except.ok.injEq] at h
      rw [← h] at ht
      obtain ⟨p, hp, h1, h2, h3, _⟩ := lexLoopSt_tokens source.data _ _ _ _ hl t ht
      obtain ⟨hne, hle, hslice⟩ :=
        scanTokens_spec source.data source.data.length source.data 0 (by simp) p hp
      refine ⟨?_, ?_, ?_⟩
      · rw [h1, h3]
        have := List.length_pos.mpr hne
        omega
      · rw [h3]
        exact hle
      · rw [h1, h3, h2]
        exact hslice

/-- Witness for C5 on `int x = 5;`: the lexer succeeds and position
fidelity holds, e.g. for its first token `int` at offsets [0,3). -/
theorem C5_witness :
    lexSource "int x = 5;" =
      .ok [⟨"keyword", "int".data, 0, 3⟩, ⟨"identifier", "x".data, 4, 5⟩,
           ⟨"operator", "=".data, 6, 7⟩, ⟨"number", "5".data, 8, 9⟩,
           ⟨"punctuation", ";".data, 9, 10⟩] ∧
      ((0 : Nat) < 3 ∧ (3 : Nat) ≤ "int x = 5;".data.length ∧
        listSlice "int x = 5;".data 0 3 = "int".data) := by
  have hok : lexSource "int x = 5;" =
      .ok [⟨"keyword", "int".data, 0, 3⟩, ⟨"identifier", "x".data, 4, 5⟩,
           ⟨"operator", "=".data, 6, 7⟩, ⟨"number", "5".data, 8, 9⟩,
           ⟨"punctuation", ";".data, 9, 10⟩] := by rfl
  exact ⟨hok, C5_token_position_fidelity "int x = 5;" _ hok
    ⟨"keyword", "int".data, 0, 3⟩ (List.mem_cons_self ..)⟩

theorem lexLoopSt_append_error (src : List Char) (ms2 : List (Nat × List Char)) :
    ∀ (ms1 : List (Nat × List Char)) (marked : List Nat) (t1 : List LexToken)
      (m1 : List Nat) (e : LexErr),
      lexLoopSt src marked ms1 = .ok (t1, m1) →
      lexLoopSt src m1 ms2 = .error e →
      lexLoopSt src marked (ms1 ++ ms2) = .error e := by
  intro ms1
  induction ms1 with
  | nil =>
    intro marked t1 m1 e h1 h2
    simp only [lexLoopSt, Except.ok.injEq, Prod.mk.injEq] at h1
    rw [List.nil_append, h1.2]
    exact h2
  | cons pr rest ih =>
    intro marked t1 m1 e h1 h2
    obtain ⟨start, lex⟩ := pr
    rw [List.cons_append, lexLoopSt]
    rw [lexLoopSt] at h1
    by_cases hmem : start ∈ marked
    · rw [if_pos hmem] at h1 ⊢
      exact ih marked t1 m1 e h1 h2
    · rw [if_neg hmem] at h1 ⊢
      dsimp only at h1 ⊢
      cases hc : classify src start lex with
      | error e2 => rw [hc] at h1; dsimp only at h1; simp at h1
      | ok ty =>
        rw [hc] at h1
        dsimp only at h1 ⊢
        cases hrec : lexLoopSt src (marked ++ List.range' start lex.length) rest with
        | error e2 => rw [hrec] at h1; dsimp only at h1; simp at h1
        | ok pr2 =>
          obtain ⟨ts, m2⟩ := pr2
          rw [hrec] at h1
          dsimp only at h1
          simp only [Except.ok.injEq, Prod.mk.injEq] at h1
          rw [ih _ ts m2 e hrec (h1.2 ▸ h2)]

theorem lexLoopSt_mono (src : List Char) :
    ∀ (ms : List (Nat × List Char)) (marked : List Nat) (toks : List LexToken)
      (m : List Nat), lexLoopSt src marked ms = .ok (toks, m) →
      ∀ x ∈ marked, x ∈ m := by
  intro ms
  induction ms with
  | nil =>
    intro marked toks m h x hx
    simp only [lexLoopSt, Except.ok.injEq, Prod.mk.injEq] at h
    rw [← h.2]
    exact hx
  | cons pr rest ih =>
    intro marked toks m h x hx
    obtain ⟨start, lex⟩ := pr
    rw [lexLoopSt] at h
    by_cases hmem : start ∈ marked
    · rw [if_pos hmem] at h
      exact ih marked toks m h x hx
    · rw [if_neg hmem] at h
      cases hc : classify src start lex with
      | error e => rw [hc] at h; simp at h
      | ok ty =>
        rw [hc] at h
        dsimp only at h
        cases hrec : lexLoopSt src (marked ++ List.range' start lex.length) rest with
        | error e => rw [hrec] at h; simp at h
        | ok pr2 =>
          obtain ⟨ts, m2⟩ := pr2
          rw [hrec] at h
          simp only [Except.ok.injEq, Prod.mk.injEq] at h
          rw [← h.2]
          exact ih _ ts m2 hrec x (List.mem_append_left _ hx)

/-- If the match scan yields `(p, lex)` right after a prefix `ms1` that the
token loop processes without error leaving `p` unmarked, and classifying
`(p, lex)` throws, then `lexSource` fails with exactly that error (the
token loop aborts before the final coverage pass). -/
theorem lexSource_error_at (source : String) (ms1 ms2 : List (Nat × List Char))
    (p : Nat) (lex : List Char) (t1 : List LexToken) (m1 : List Nat) (e : LexErr)
    (hsplit : jsMatchAll source.data = ms1 ++ (p, lex) :: ms2)
    (hok : lexLoopSt source.data (preScanMarks source.data) ms1 = .ok (t1, m1))
    (hp : p ∉ m1)
    (herr : classify source.data p lex = .error e) :
    lexSource source = .error e := by
  unfold lexSource
  dsimp only
  rw [hsplit]
  have h2 : lexLoopSt source.data m1 ((p, lex) :: ms2) = .error e := by
    rw [lexLoopSt, if_neg hp, herr]
  rw [lexLoopSt_append_error source.data ((p, lex) :: ms2) ms1
    (preScanMarks source.data) t1 m1 e hok h2]

/-- C6 (amended): if the token scan yields a kept (unmarked) match that is a
quote-delimited char lexeme whose content is neither one raw character nor
a two-character backslash escape, and every earlier kept match classifies
without error, then `lex` fails with the char-literal `LexicalError` whose
line and column are those of the opening quote. -/
theorem C6_invalid_char_literal (source : String)
    (ms1 ms2 : List (Nat × List Char)) (p : Nat) (lex : List Char)
    (t1 : List LexToken) (m1 : List Nat)
    (hsplit : jsMatchAll source.data = ms1 ++ (p, lex) :: ms2)
    (hok : lexLoopSt source.data (preScanMarks source.data) ms1 = .ok (t1, m1))
    (hp : p ∉ m1)
    (hhead : lex.head? = some aposCh) (hlast : lex.getLast? = some aposCh)
    (hbad : validCharContent ((lex.drop 1).dropLast) = false) :
    lexSource source =
      .error (.invalidCharLiteral lex (lineOf source.data p) (colOf source.data p)) := by
  apply lexSource_error_at source ms1 ms2 p lex t1 m1 _ hsplit hok hp
  have hne : ¬ (aposCh = quoteCh) := by decide
  have h1 : (startsWithCh lex quoteCh && endsWithCh lex quoteCh) = false := by
    simp [startsWithCh, hhead, hne]
  have h2 : (startsWithCh lex aposCh && endsWithCh lex aposCh) = true := by
    simp [startsWithCh, endsWithCh, hhead, hlast]
  unfold classify
  rw [h1, h2, hbad]
  simp

/-- Counterexample to C6 as stated: the source `"'ab'"` contains the
quote-delimited char literal `'ab'` (content two raw characters) outside
any comment, yet `lex` succeeds — the literal sits inside a string token,
so no char-literal error is raised. -/
theorem C6_counterexample :
    lexSource "\"'ab'\"" = .ok [⟨"string", "\"'ab'\"".data, 0, 6⟩] := by rfl

/-- Witness for C6 on the source `'ab'` itself. -/
theorem C6_witness :
    lexSource "'ab'" = .error (.invalidCharLiteral "'ab'".data 1 1) := by
  have h := C6_invalid_char_literal "'ab'" [] [] 0 "'ab'".data [] []
    (by rfl) (by rfl) (by decide) (by decide) (by decide) (by decide)
  rw [h]
  rfl

/-- C7 (amended): if the source has a block-comment opener `/*` at `p` with
no closing `*/` anywhere after it, the scan yields the opener's `/` as its
own match, and the earlier kept matches classify without error leaving `p`
unmarked, then the pre-scan leaves the opener unmarked and `lex` fails with
an invalid-character `LexicalError` positioned at the opening `/`. -/
theorem C7_unterminated_block_comment (source : String)
    (ms1 ms2 : List (Nat × List Char)) (t1 : List LexToken) (m1 : List Nat)
    (p : Nat)
    (hopen : listSlice source.data p (p + 2) = ['/', '*'])
    (hnoclose : findStarSlash (source.data.drop (p + 2)) = none)
    (hsplit : jsMatchAll source.data = ms1 ++ (p, ['/']) :: ms2)
    (hok : lexLoopSt source.data (preScanMarks source.data) ms1 = .ok (t1, m1))
    (hp : p ∉ m1) :
    p ∉ preScanMarks source.data ∧
    lexSource source =
      .error (.invalidCharacter ['/'] (lineOf source.data p) (colOf source.data p)) := by
  constructor
  · intro hmem
    exact hp (lexLoopSt_mono source.data ms1 (preScanMarks source.data) t1 m1 hok p hmem)
  · exact lexSource_error_at source ms1 ms2 p ['/'] t1 m1 _ hsplit hok hp rfl

/-- Counterexample to C7 as stated: `"/*"` contains a `/*` opener (at
offset 1) with no closing `*/` after it, and the pre-scan indeed leaves it
unmarked, yet `lex` succeeds: the opener is swallowed by the string token,
so no invalid-character error is raised at the opening `/`. -/
theorem C7_counterexample :
    lexSource "\"/*\"" = .ok [⟨"string", "\"/*\"".data, 0, 4⟩] := by rfl

/-- Witness for C7 on `int /*`. -/
theorem C7_witness :
    4 ∉ preScanMarks "int /*".data ∧
    lexSource "int /*" = .error (.invalidCharacter ['/'] 1 5) := by
  have h := C7_unterminated_block_comment "int /*" [(0, "int".data)] [(5, ['*'])]
    [⟨"keyword", "int".data, 0, 3⟩] [3, 0, 1, 2] 4
    (by rfl) (by rfl) (by rfl) (by rfl) (by decide)
  exact ⟨h.1, by rw [h.2]; rfl⟩

theorem classify_ok_kinds (src : List Char) (start : Nat) (lex : List Char)
    (ty : String) (h : classify src start lex = .ok ty) :
    (ty = "operator" → lex = "=".data) ∧
    (ty = "punctuation" → lex = ";".data ∨ lex = ",".data) := by
  unfold classify at h
  split_ifs at h with h1 h2 h3 h4 h5 h6 h7 h8 h9 <;>
    simp only [Except.ok.injEq] at h
  · subst h; exact ⟨fun hq => absurd hq (by decide), fun hq => absurd hq (by decide)⟩
  · subst h; exact ⟨fun hq => absurd hq (by decide), fun hq => absurd hq (by decide)⟩
  · subst h; exact ⟨fun hq => absurd hq (by decide), fun hq => absurd hq (by decide)⟩
  · subst h; exact ⟨fun hq => absurd hq (by decide), fun hq => absurd hq (by decide)⟩
  · subst h; exact ⟨fun hq => absurd hq (by decide), fun hq => absurd hq (by decide)⟩
  · subst h
    refine ⟨fun _ => ?_, fun hq => absurd hq (by decide)⟩
    simp only [lexemeIn, operatorsList, List.any_cons, List.any_nil,
      Bool.or_false, decide_eq_true_eq] at h7
    exact h7.symm
  · subst h
    refine ⟨fun hq => absurd hq (by decide), fun _ => ?_⟩
    simp only [lexemeIn, punctuationList, List.any_cons, List.any_nil,
      Bool.or_false, Bool.or_eq_true, decide_eq_true_eq] at h8
    rcases h8 with h8 | h8
    · exact Or.inl h8.symm
    · exact Or.inr h8.symm
  · subst h; exact ⟨fun hq => absurd hq (by decide), fun hq => absurd hq (by decide)⟩

theorem lexSource_ok_inv (source : String) (toks : List LexToken)
    (h : lexSource source = .ok toks) :
    ∃ m, lexLoopSt source.data (preScanMarks source.data) (jsMatchAll source.data) =
      .ok (toks, m) := by
  unfold lexSource at h
  dsimp only at h
  cases hl : lexLoopSt source.data (preScanMarks source.data) (jsMatchAll source.data) with
  | error e => rw [hl] at h; simp at h
  | ok pr =>
    obtain ⟨ts, m⟩ := pr
    rw [hl] at h
    dsimp only at h
    cases hf : finalPassAux source.data m source.data 0 with
    | error e => rw [hf] at h; simp at h
    | ok u =>
      rw [hf] at h
      simp only [Except.ok.injEq] at h
      exact ⟨m, by rw [h]⟩

/-- C10: the only operator lexeme `lex` ever returns is `=` and the only
punctuation lexemes are `;` and `,`; and whenever the scan yields, as a
kept match reached without earlier classification error, one of the other
single characters of the single-character production
(`+ - * / ( ) { } [ ] < > ! & |`), `lex` raises the `Invalid character`
`LexicalError` at that character instead of returning a token sequence. -/
theorem C10_operator_punctuation_only :
    (∀ (source : String) (toks : List LexToken), lexSource source = .ok toks →
      ∀ t ∈ toks, (t.type = "operator" → t.lexeme = "=".data) ∧
        (t.type = "punctuation" → t.lexeme = ";".data ∨ t.lexeme = ",".data)) ∧
    (∀ (source : String) (ms1 ms2 : List (Nat × List Char)) (t1 : List LexToken)
      (m1 : List Nat) (p : Nat) (c : Char), c ∈ nonLexableSingles →
      jsMatchAll source.data = ms1 ++ (p, [c]) :: ms2 →
      lexLoopSt source.data (preScanMarks source.data) ms1 = .ok (t1, m1) →
      p ∉ m1 →
      lexSource source =
        .error (.invalidCharacter [c] (lineOf source.data p) (colOf source.data p))) := by
  constructor
  · intro source toks h t ht
    obtain ⟨m, hl⟩ := lexSource_ok_inv source toks h
    obtain ⟨pr, _, _, hlex, _, hcl⟩ := lexLoopSt_tokens source.data _ _ _ _ hl t ht
    have := classify_ok_kinds source.data pr.1 pr.2 t.type hcl
    rw [← hlex] at this
    exact this
  · intro source ms1 ms2 t1 m1 p c hc hsplit hok hp
    apply lexSource_error_at source ms1 ms2 p [c] t1 m1 _ hsplit hok hp
    fin_cases hc <;> rfl

/-- Counterexample to C10 as stated: `'ab' +` contains `+` outside
comments, strings, chars and numbers, so the claim predicts an
`Invalid character` failure; `lex` does fail, but with the char-literal
message for the earlier `'ab'`, not with `Invalid character`. -/
theorem C10_counterexample :
    lexSource "'ab' +" = .error (.invalidCharLiteral "'ab'".data 1 1) := by rfl

/-- Witness for C10 on the spec's own example `5 + 3`. -/
theorem C10_witness :
    lexSource "5 + 3" = .error (.invalidCharacter ['+'] 1 3) := by
  have h := C10_operator_punctuation_only.2 "5 + 3" [(0, ['5'])] [(4, ['3'])]
    [⟨"number", ['5'], 0, 1⟩] [1, 3, 0] 2 '+'
    (by decide) (by rfl) (by rfl) (by decide)
  rw [h]
  rfl

theorem stmtMatch_ident_shape (s ty ident expr : List Char)
    (h : stmtMatch s = some (ty, ident, expr)) :
    ident ≠ [] ∧ ∀ c ∈ ident, isWordCh c = true := by
  unfold stmtMatch at h
  dsimp only at h
  split_ifs at h with h1 h2 h3
  split at h
  · split_ifs at h with h4 h5
    simp only [Option.some.injEq, Prod.mk.injEq] at h
    obtain ⟨hty, hident, hexpr⟩ := h
    constructor
    · rw [← hident]
      simpa [List.isEmpty_iff] using h3
    · intro c hc
      rw [← hident] at hc
      exact List.mem_takeWhile_imp hc
  · exact Option.noConfusion h

/-- C8: for a statement fragment matching
`<type> <identifier> = <expression>` with a recognized type, an identifier
starting with a digit fails with the distinct `cannot start with a number`
message; otherwise an identifier failing `[A-Za-z_][A-Za-z0-9_]*` fails
with the distinct `contains invalid characters` message — the two checks
run in that order with different messages (the second is unreachable for
fragments matched by the statement pattern, whose `\w+` capture admits no
other characters; it is stated and proved exactly as claimed). -/
theorem C8_identifier_checks (stmt ty ident expr : List Char)
    (hm : stmtMatch stmt = some (ty, ident, expr))
    (hty : javaTypesHas (String.mk ty) = true) :
    (startsWithDigit ident = true →
      processStmt stmt = .error ("Syntax error: Identifier '" ++ String.mk ident ++
        "' cannot start with a number")) ∧
    (startsWithDigit ident = false → identTest ident = false →
      processStmt stmt = .error ("Syntax error: Identifier '" ++ String.mk ident ++
        "' contains invalid characters")) := by
  constructor
  · intro hd
    unfold processStmt
    rw [hm]
    dsimp only
    rw [if_neg (by simp [hty]), if_pos hd]
  · intro hd hit
    exfalso
    obtain ⟨hne, hall⟩ := stmtMatch_ident_shape stmt ty ident expr hm
    cases ident with
    | nil => exact hne rfl
    | cons c rest =>
      have hw : isWordCh c = true := hall c (List.mem_cons_self ..)
      have hds : isDigitCh c = false := by
        by_contra hq
        rw [Bool.not_eq_false] at hq
        simp [startsWithDigit, hq] at hd
      have hstart : isIdentStart c = true := by
        simp only [isWordCh, hds, Bool.or_false] at hw
        exact hw
      have hid : identTest (c :: rest) = true := by
        simp only [identTest, hstart, Bool.true_and, List.all_eq_true]
        exact fun x hx => hall x (List.mem_cons_of_mem _ hx)
      rw [hid] at hit
      exact absurd hit (by simp)

/-- Witness for C8 on the fragment `int 9x = 5`. -/
theorem C8_witness :
    processStmt "int 9x = 5".data =
      .error "Syntax error: Identifier '9x' cannot start with a number" := by
  have h := (C8_identifier_checks "int 9x = 5".data "int".data "9x".data "5".data
    (by decide) (by decide)).1 (by decide)
  rw [h]
  rfl

/-- C9: the parser's comment stripping is not string-literal-aware: on
`String s = "a//b";` the `//` inside the string literal is stripped as a
comment, so the resulting `VariableDeclaration` stores the truncated
expression text `"a` instead of the original literal `"a//b"`. -/
theorem C9_comment_stripping_in_string :
    buildAst "String s = \"a//b\";" =
      .ok (.mk "Program" none (some [mkDecl "String" "s" "\"a"])) ∧
    ("\"a" : String) ≠ "\"a//b\"" :=
  ⟨by rfl, by decide⟩
